import Mathlib

/-!
Shallow embedding of the `grid` package (grid.go and the actor-definition
file): a Kafka-backed coordinator owning an operator registry, partition
discovery, instance lifecycle, merge/demux plumbing, and actor identity
validation.  Go maps are modelled as association lists with prepend-insert
and first-match lookup (last write wins); Go channels carrying finite
traces are modelled as lists of events; goroutine interleaving is modelled
by explicit schedules; `log.Fatalf` and `panic` are modelled as explicit
outcome variants.  Machine integers: Go `int` is modelled as `Int`, the
`uint32` conversion as `emod 2^32`.
-/

/-- An event on a topic: destination topic, partitioning key, decoded
message (abstracted to an integer payload). Mirrors the `Event` values
built by `NewWritable(topic, key, msg)`. -/
structure Event where
  topic : String
  key : String
  message : Int
deriving DecidableEq, Repr

/-- The Go conversion `uint32(x)`: the value modulo 2^32, as a natural. -/
def goUint32 (x : Int) : Nat := (x % (2 ^ 32)).toNat

/-- A registered operator, `type op` in grid.go: parallelism `n`, the
operator function `f` (a stream transformer, channels modelled as lists),
and the set of declared input topics (`map[string]bool` modelled as a
list of its true keys). -/
structure Op where
  n : Int
  f : List Event → List Event
  inputs : List String

/-- The `ReadWriteLog` collaborator as the core uses it: the set of topics
with a registered decoder / encoder, partition discovery (`Partitions`,
which can fail), and the wiring side effects of `Read`/`Write` recorded as
lists of calls. -/
structure ReadWriteLog where
  decodedTopics : List String
  encodedTopics : List String
  partitions : String → Except String (List Int)
  reads : List (String × List Int)
  writes : List String

/-- The `Grid` struct: log handle, names, peer count, quorum (a `uint32`
in Go, hence a `Nat` below 2^32), discovered partition table
(`map[string][]int32`), operator registry (`map[string]*op`), the
`sync.WaitGroup` counter, whether the `exit` channel has been closed, the
optional metrics registry, and the test hook `maxleadertime`. -/
structure Grid where
  log : ReadWriteLog
  gridname : String
  cmdtopic : String
  npeers : Int
  quorum : Nat
  parts : List (String × List Int)
  ops : List (String × Op)
  wgCount : Int
  exitClosed : Bool
  registry : Option String
  maxleadertime : Int

/-- `NewWithKafkaConfig(gridname, npeers, kconfig)` with the Kafka log
construction abstracted into the `rwlog` argument: derives the command
topic name, computes `quorum = uint32((npeers/2)+1)` (Go `/` on `int`
truncates toward zero, hence `Int.div`), starts with empty partition table
and operator registry, does `wg.Add(1)`, and registers the command-message
decoder and encoder for the command topic. -/
def NewWithKafkaConfig (gridname : String) (npeers : Int) (rwlog : ReadWriteLog) : Grid :=
  let cmdtopic := gridname ++ "-cmd"
  { log := { rwlog with
      decodedTopics := cmdtopic :: rwlog.decodedTopics
      encodedTopics := cmdtopic :: rwlog.encodedTopics }
    gridname := gridname
    cmdtopic := cmdtopic
    npeers := npeers
    quorum := goUint32 ((Int.tdiv npeers 2) + 1)
    parts := []
    ops := []
    wgCount := 1
    exitClosed := false
    registry := none
    maxleadertime := 0 }

/-- One iteration of the topic loop inside `Grid.Add`: check the topic has
a decoder, mark it as an input of the op, discover its partitions, store
them in the partition table of the grid, and fail if the partition count
exceeds the parallelism `n`.  Returns the (possibly partially mutated)
grid together with the op built so far and an optional error: the grid is
returned even on error because in Go the mutations to `g.parts` made
before the failing check persist. -/
def addTopics (n : Int) : Grid → Op → List String → Grid × Op × Option String
  | g, o, [] => (g, o, none)
  | g, o, topic :: rest =>
    if g.log.decodedTopics.contains topic then
      let o := { o with inputs := o.inputs ++ [topic] }
      match g.log.partitions topic with
      | .error e => (g, o, some ("grid: topic: " ++ topic ++ ": failed getting partition data: " ++ e))
      | .ok ps =>
        let g := { g with parts := (topic, ps) :: g.parts }
        if (ps.length : Int) > n then
          (g, o, some ("grid: topic: " ++ topic ++ ": parallelism of function is greater than number of partitions"))
        else
          addTopics n g o rest
    else
      (g, o, some ("grid: topic: " ++ topic ++ ": no decoder found for topic"))

/-- `Grid.Add(fname, n, f, topics...)`: rejects a duplicate name, then runs
the topic loop; on success records the operator in the registry.  The
returned grid carries any partition-table entries stored before a failing
check, exactly as the Go code mutates `g` in place. -/
def Grid.Add (g : Grid) (fname : String) (n : Int) (f : List Event → List Event)
    (topics : List String) : Grid × Option String :=
  if (g.ops.lookup fname).isSome then
    (g, some ("gird: already added: " ++ fname))
  else
    match addTopics n g { n := n, f := f, inputs := [] } topics with
    | (g', o, none) => ({ g' with ops := (fname, o) :: g'.ops }, none)
    | (g', _, some e) => (g', some e)

/-- A partition assignment, `type Instance`: operator name, instance id,
and the mapping topic → assigned partitions (`TopicSlices`). -/
structure Instance where
  Fname : String
  Id : Int
  TopicSlices : List (String × List Int)

/-- The two `log.Fatalf` branches at the start of `Grid.startinst`. -/
inductive StartinstFatal where
  | doesNotExist (fname : String)
  | notSetAsReader (fname : String) (topic : String)
deriving DecidableEq, Repr

/-- The per-topic validation loop of `startinst`: each assigned topic must
be among the declared input topics of the operator, else `log.Fatalf`. -/
def startinstCheckTopics (o : Op) (fname : String) :
    List (String × List Int) → Option StartinstFatal
  | [] => none
  | (topic, _) :: rest =>
    if o.inputs.contains topic then startinstCheckTopics o fname rest
    else some (.notSetAsReader fname topic)

/-- The validation phase of `Grid.startinst(inst)`: the named operator must
exist in the registry, and every topic of the assignment must be declared
as one of its inputs.  `none` means both fatal branches were passed;
`some` is a `log.Fatalf` (process death, no error value is ever returned
to the caller). -/
def Grid.startinstCheck (g : Grid) (inst : Instance) : Option StartinstFatal :=
  match g.ops.lookup inst.Fname with
  | none => some (.doesNotExist inst.Fname)
  | some o => startinstCheckTopics o inst.Fname inst.TopicSlices

/-- State of the `merge` fan-in: remaining events of each input channel,
events sent to the `merged` channel so far (in send order), and the rate
meter `GetOrRegisterMeter(fname+"-msg-rate", registry)` as its name and
count. -/
structure MergeState where
  pending : List (List Event)
  merged : List Event
  meterName : String
  meterCount : Nat
deriving DecidableEq, Repr

/-- Initial state of `Grid.merge(fname, ins)`: nothing consumed yet, the
meter named `fname ++ "-msg-rate"` registered at zero. -/
def Grid.mergeInit (fname : String) (ins : List (List Event)) : MergeState :=
  { pending := ins
    merged := []
    meterName := fname ++ "-msg-rate"
    meterCount := 0 }

/-- One step of the goroutine spawned per input channel in `merge`: worker
`i` takes the next event of its input, sends it on `merged`, and does
`meter.Mark(1)`.  A worker whose input is exhausted (or an out-of-range
index) does nothing. -/
def mergeStep (s : MergeState) (i : Nat) : MergeState :=
  match s.pending.get? i with
  | some (e :: rest) =>
    { s with
      pending := s.pending.set i rest
      merged := s.merged ++ [e]
      meterCount := s.meterCount + 1 }
  | _ => s

/-- A run of `Grid.merge(fname, ins)` under an explicit interleaving
`sched` of the per-input worker goroutines. -/
def mergeRun (fname : String) (ins : List (List Event)) (sched : List Nat) : MergeState :=
  sched.foldl mergeStep (Grid.mergeInit fname ins)

/-- A scheduling step of the demultiplexing goroutines spawned by
`startinst`: worker `i` receives the next event from the shared operator
output channel, or delivers the event it holds to the per-topic channel. -/
inductive DemuxStep where
  | recv (i : Nat)
  | deliver (i : Nat)
deriving DecidableEq, Repr

/-- State of the demux phase of `startinst`: events not yet received from
the output channel of the operator (oldest first), the event each worker has
received but not yet routed, the per-topic output channels (`outs`) with
the events sent to each in send order, and whether some worker hit the
`log.Fatalf` branch for an event addressed to a topic with no entry in
`outs`. -/
structure DemuxState where
  produced : List Event
  holding : List (Option Event)
  delivered : List (String × List Event)
  fatal : Option Event
deriving DecidableEq, Repr

/-- Append event `e` to the output channel of topic `t`. -/
def demuxSend (delivered : List (String × List Event)) (t : String) (e : Event) :
    List (String × List Event) :=
  delivered.map (fun p => if p.1 = t then (p.1, p.2 ++ [e]) else p)

/-- Initial demux state: `startinst` spawns one goroutine per topic in
`EncodedTopics()`, all ranging over the single operator output channel
`out`, and opens one buffered channel per encoded topic. -/
def demuxInit (encoded : List String) (out : List Event) : DemuxState :=
  { produced := out
    holding := List.replicate encoded.length none
    delivered := encoded.map (fun t => (t, []))
    fatal := none }

/-- One scheduled step of the demux goroutines.  After a `log.Fatalf` the
process is dead, so every later step is a no-op.  On `deliver`, worker `i`
routes its held event to `outs[event.Topic()]` if that channel exists and
dies fatally otherwise. -/
def demuxStepFn (s : DemuxState) : DemuxStep → DemuxState
  | .recv i =>
    if s.fatal.isSome then s
    else
      match s.holding.get? i, s.produced with
      | some none, e :: rest =>
        { s with produced := rest, holding := s.holding.set i (some e) }
      | _, _ => s
  | .deliver i =>
    if s.fatal.isSome then s
    else
      match s.holding.get? i with
      | some (some e) =>
        if (s.delivered.lookup e.topic).isSome then
          { s with
            delivered := demuxSend s.delivered e.topic e
            holding := s.holding.set i none }
        else
          { s with fatal := some e }
      | _ => s

/-- A run of the demux loop of `startinst` under an explicit interleaving
of the per-topic goroutines. -/
def demuxRun (encoded : List String) (out : List Event) (sched : List DemuxStep) : DemuxState :=
  sched.foldl demuxStepFn (demuxInit encoded out)

/-- The actor-definition error values `ErrInvalidActorType`,
`ErrInvalidActorName`, `ErrInvalidActorNamespace`. -/
inductive ActorErr where
  | invalidActorType
  | invalidActorName
  | invalidActorNamespace
deriving DecidableEq, Repr

/-- `ActorDef`: cached id, `Type` (renamed `type`, a reserved word in
Lean), `Name`, and the unexported `namespace` field (renamed `nspace`, a
keyword in Lean). -/
structure ActorDef where
  id : String
  type : String
  Name : String
  nspace : String
deriving DecidableEq, Repr

/-- `NewActorDef(name)`: Type and Name both set to `name`, the namespace
left to the owning layer, id not yet computed. -/
def NewActorDef (name : String) : ActorDef :=
  { id := "", type := name, Name := name, nspace := "" }

/-- `ActorDef.ID()`: computes `fmt.Sprintf("%v-%v", a.namespace, a.Name)`
on first call (cached-id field still empty) and stores it; later calls
return the stored string.  Go mutates the receiver, so the method returns
the string together with the updated value. -/
def ActorDef.ID (a : ActorDef) : String × ActorDef :=
  if a.id = "" then
    let s := a.nspace ++ "-" ++ a.Name
    (s, { a with id := s })
  else
    (a.id, a)

/-- Modelled from the spec: the helper `isNameValid` called by
`ValidateActorDef` is not among the source files; the name grammar of the spec
says `namespace`, `Name`, `Type` "must each match a restricted name
grammar (no whitespace, non-empty)". -/
def isNameValid (s : String) : Bool :=
  s != "" && s.data.all (fun c => !c.isWhitespace)

/-- `ValidateActorDef(def)`: checks `Type`, then `Name`, then the
namespace against the name grammar, returning the error of the first
offending field, `nil` (`none`) when all are valid. -/
def ValidateActorDef (d : ActorDef) : Option ActorErr :=
  if !(isNameValid d.type) then some .invalidActorType
  else if !(isNameValid d.Name) then some .invalidActorName
  else if !(isNameValid d.nspace) then some .invalidActorNamespace
  else none

/-- `Grid.Start()`: defaults the metrics registry when unset, builds the
Voter and Manager bound to peer index 0, and wires two read-process-write
loops over partition 0 of the command topic (one `log.Read` and one
`log.Write` call per state machine — the state-machine internals are
not needed by the theorems below, the wiring calls are recorded on the log).
Always returns `nil`. -/
def Grid.Start (g : Grid) : Grid × Option String :=
  let g1 := if g.registry.isNone then { g with registry := some "metrics.DefaultRegistry" } else g
  let cmdpart : List Int := [0]
  let g2 := { g1 with log := { g1.log with
      reads := g1.log.reads ++ [(g1.cmdtopic, cmdpart)]
      writes := g1.log.writes ++ [g1.cmdtopic] } }
  let g3 := { g2 with log := { g2.log with
      reads := g2.log.reads ++ [(g2.cmdtopic, cmdpart)]
      writes := g2.log.writes ++ [g2.cmdtopic] } }
  (g3, none)

/-- Outcome of a Go call that can `panic`. -/
inductive GoOutcome (α : Type) where
  | ok (value : α)
  | panicked (msg : String)
deriving DecidableEq, Repr

/-- `Grid.Stop()`: `close(g.exit)` — which panics if the channel is
already closed — followed by `g.wg.Done()`, which panics if it would
drive the `WaitGroup` counter negative. -/
def Grid.Stop (g : Grid) : GoOutcome Grid :=
  if g.exitClosed then .panicked "close of closed channel"
  else
    let g := { g with exitClosed := true }
    if g.wgCount - 1 < 0 then .panicked "sync: negative WaitGroup counter"
    else .ok { g with wgCount := g.wgCount - 1 }

/-- `Grid.Wait()` returns exactly when the `WaitGroup` counter has
reached zero. -/
def Grid.waitReturns (g : Grid) : Bool := g.wgCount == 0

/-- A log handle with nothing registered, used to instantiate grids at
concrete inputs. -/
def emptyLog : ReadWriteLog :=
  { decodedTopics := []
    encodedTopics := []
    partitions := fun _ => .error "no such topic"
    reads := []
    writes := [] }

/-- The identity operator function, used to instantiate `Add` at concrete
inputs. -/
def idF : List Event → List Event := fun l => l

/-- A log with one decodable topic `topicA` whose discovered partitions
are `ps`. -/
def topicALog (ps : List Int) : ReadWriteLog :=
  { decodedTopics := ["topicA"]
    encodedTopics := []
    partitions := fun t => if t = "topicA" then .ok ps else .error "unknown topic"
    reads := []
    writes := [] }

/-- A fresh grid over `topicALog ps`. -/
def topicAGrid (ps : List Int) : Grid :=
  { log := topicALog ps
    gridname := "g"
    cmdtopic := "g-cmd"
    npeers := 1
    quorum := 1
    parts := []
    ops := []
    wgCount := 1
    exitClosed := false
    registry := none
    maxleadertime := 0 }

/-- A log with two decodable topics: `tA` with one partition and `tB`
with three. -/
def exLog : ReadWriteLog :=
  { decodedTopics := ["tA", "tB"]
    encodedTopics := []
    partitions := fun t =>
      if t = "tA" then .ok [0]
      else if t = "tB" then .ok [0, 1, 2]
      else .error "unknown topic"
    reads := []
    writes := [] }

/-- A fresh grid over `exLog`. -/
def exGrid : Grid :=
  { log := exLog
    gridname := "g"
    cmdtopic := "g-cmd"
    npeers := 1
    quorum := 1
    parts := []
    ops := []
    wgCount := 1
    exitClosed := false
    registry := none
    maxleadertime := 0 }

/-- The multiset of events of a list, used to state that merging neither
loses nor duplicates events. -/
def mset (l : List Event) : Multiset Event := l

/-- Three input streams of one hundred distinct events each. -/
def mergeDemoIns : List (List Event) :=
  (List.range 3).map fun s =>
    (List.range 100).map fun k =>
      { topic := "t", key := "", message := (100 * s + k : Nat) }

/-- A round-robin interleaving draining the three demo streams. -/
def mergeDemoSched : List Nat := (List.range 300).map fun k => k % 3

/-- A first event addressed to `topicB`. -/
def cxEv1 : Event := { topic := "topicB", key := "a", message := 1 }

/-- A second event addressed to `topicB`. -/
def cxEv2 : Event := { topic := "topicB", key := "b", message := 2 }

/-- A registered operator reading topic `t1`, used to instantiate the
startinst validation at a concrete input. -/
def opW : Op := { n := 1, f := idF, inputs := ["t1"] }

/-- A grid whose registry holds only `opW` under the name `w`. -/
def gridW : Grid :=
  { log := emptyLog
    gridname := "g"
    cmdtopic := "g-cmd"
    npeers := 1
    quorum := 1
    parts := [("t1", [0])]
    ops := [("w", opW)]
    wgCount := 1
    exitClosed := false
    registry := none
    maxleadertime := 0 }

/-- The validation loop of `startinst` passes exactly when every assigned
topic is a declared input of the operator. -/
theorem startinstCheckTopics_none_iff (o : Op) (fname : String)
    (l : List (String × List Int)) :
    startinstCheckTopics o fname l = none ↔
      ∀ p ∈ l, o.inputs.contains p.1 = true := by
  induction l with
  | nil => simp [startinstCheckTopics]
  | cons hd tl ih =>
    obtain ⟨topic, ps⟩ := hd
    by_cases h : topic ∈ o.inputs
    · simp [startinstCheckTopics, h, ih]
    · simp [startinstCheckTopics, h]

/-- C4: the two fatal branches at the start of `startinst` are passed
exactly when the named operator is registered and every assigned topic is
among its declared input topics; when either precondition fails the call
dies by `log.Fatalf` (a `some` fatal outcome) and never returns an error
value to the caller. -/
theorem startinstCheck_spec (g : Grid) (inst : Instance) :
    g.startinstCheck inst = none ↔
      ∃ o, g.ops.lookup inst.Fname = some o
        ∧ ∀ p ∈ inst.TopicSlices, o.inputs.contains p.1 = true := by
  unfold Grid.startinstCheck
  cases h : g.ops.lookup inst.Fname with
  | none => simp
  | some o => simp [startinstCheckTopics_none_iff]

/-- C5: `ValidateActorDef` reports the first offending field in the fixed
order Type, Name, namespace, returns `nil` exactly when all three are
valid, and an empty Type yields `ErrInvalidActorType` whatever the other
fields hold. -/
theorem validateActorDef_order (d : ActorDef) :
    (ValidateActorDef d = some .invalidActorType ↔ isNameValid d.type = false)
    ∧ (ValidateActorDef d = some .invalidActorName ↔
        isNameValid d.type = true ∧ isNameValid d.Name = false)
    ∧ (ValidateActorDef d = some .invalidActorNamespace ↔
        isNameValid d.type = true ∧ isNameValid d.Name = true
          ∧ isNameValid d.nspace = false)
    ∧ (ValidateActorDef d = none ↔
        isNameValid d.type = true ∧ isNameValid d.Name = true
          ∧ isNameValid d.nspace = true)
    ∧ (d.type = "" → ValidateActorDef d = some .invalidActorType) := by
  have hempty : isNameValid "" = false := by decide
  unfold ValidateActorDef
  cases hT : isNameValid d.type <;> cases hN : isNameValid d.Name <;>
    cases hS : isNameValid d.nspace <;>
      simp_all <;> (intro h; rw [h] at hT; simp [hempty] at hT)

/-- C5 witness: a def with empty Type is rejected as an invalid actor
type regardless of the other fields, and a fully valid def passes. -/
theorem validateActorDef_order_witness :
    ValidateActorDef { id := "", type := "", Name := "n", nspace := "ns" }
        = some .invalidActorType
    ∧ ValidateActorDef { id := "", type := "t", Name := "n", nspace := "ns" } = none := by
  constructor
  · exact (validateActorDef_order _).2.2.2.2 rfl
  · exact (validateActorDef_order
      { id := "", type := "t", Name := "n", nspace := "ns" }).2.2.2.1.mpr
      ⟨by decide, by decide, by decide⟩

/-- A computed actor identity is never the empty string, which is what
makes the caching in `ID()` stick. -/
theorem id_string_ne_empty (x y : String) : x ++ "-" ++ y ≠ "" := by
  intro h
  have hlen := congrArg String.length h
  simp [String.length_append] at hlen
  exact absurd hlen.1.2 (by decide)

/-- C6: on a def whose id field is still empty, `ID()` returns
`namespace ++ "-" ++ Name` and caches it; every later `ID()` returns that
same cached string even if the Type, Name and namespace fields are all
mutated in between. -/
theorem actorDef_id_cached (a : ActorDef) (h : a.id = "") :
    (a.ID).1 = a.nspace ++ "-" ++ a.Name
    ∧ ∀ ty nm ns,
        (({ (a.ID).2 with type := ty, Name := nm, nspace := ns } : ActorDef).ID).1
          = (a.ID).1 := by
  constructor
  · simp [ActorDef.ID, h]
  · intro ty nm ns
    simp [ActorDef.ID, h, id_string_ne_empty]

/-- C6 witness: `NewActorDef "x"` starts with an uncomputed id, its first
`ID()` is `"-x"` (empty namespace), and that value survives a mutation of
the Name field. -/
theorem actorDef_id_cached_witness :
    (NewActorDef "x").id = ""
    ∧ ((NewActorDef "x").ID).1 = "-x"
    ∧ (({ ((NewActorDef "x").ID).2 with
          type := "y", Name := "y", nspace := "other" } : ActorDef).ID).1 = "-x" := by
  have h := actorDef_id_cached (NewActorDef "x") rfl
  refine ⟨rfl, ?_, ?_⟩
  · rw [h.1]; rfl
  · rw [h.2 "y" "y" "other", h.1]; rfl

/-- C7 as stated is false: the quorum is stored into a `uint32` field, so
a peer count of 2^33 (valid for a 64-bit Go `int`) makes
`⌊npeers/2⌋ + 1 = 2^32 + 1` wrap around to 1, not the claimed value. -/
theorem quorum_uint32_counterexample :
    (NewWithKafkaConfig "g" (2 ^ 33) emptyLog).quorum = 1
    ∧ Int.tdiv (2 ^ 33) 2 + 1 = 2 ^ 32 + 1
    ∧ (1 : Nat) ≠ 2 ^ 32 + 1 := by
  refine ⟨?_, by decide, by decide⟩
  show goUint32 (Int.tdiv (2 ^ 33) 2 + 1) = 1
  decide

/-- C7 amended: for every gridname and every peer count npeers ≥ 1 whose
quorum value fits a `uint32` (in particular every realistic peer count),
the grid built by `NewWithKafkaConfig` stores
`quorum = ⌊npeers/2⌋ + 1`. -/
theorem quorum_formula (gridname : String) (npeers : Int) (rwlog : ReadWriteLog)
    (h1 : 1 ≤ npeers) (h2 : Int.tdiv npeers 2 + 1 < 2 ^ 32) :
    ((NewWithKafkaConfig gridname npeers rwlog).quorum : Int) = npeers / 2 + 1 := by
  have h0 : (0 : Int) ≤ Int.tdiv npeers 2 + 1 := by
    have := Int.tdiv_nonneg (by omega : (0 : Int) ≤ npeers) (by omega : (0 : Int) ≤ 2)
    omega
  have htd : Int.tdiv npeers 2 = npeers / 2 :=
    Int.tdiv_eq_ediv (by omega) (by omega)
  show ((goUint32 (Int.tdiv npeers 2 + 1) : Nat) : Int) = npeers / 2 + 1
  unfold goUint32
  rw [Int.emod_eq_of_lt h0 h2, Int.toNat_of_nonneg h0, htd]

/-- C7 amended witness: with five peers the stored quorum is three. -/
theorem quorum_formula_witness :
    (1 : Int) ≤ 5 ∧ Int.tdiv 5 2 + 1 < 2 ^ 32
    ∧ ((NewWithKafkaConfig "g" 5 emptyLog).quorum : Int) = 5 / 2 + 1 :=
  ⟨by decide, by decide, quorum_formula "g" 5 emptyLog (by decide) (by decide)⟩

/-- C8: `Start()` returns `nil` unconditionally, on the first call and on
any repeated call; the only state it touches is the metrics registry
(defaulted when unset) and the log wiring (one partition-0 reader and one
writer of the command topic per state machine, Voter and Manager). -/
theorem start_returns_nil (g : Grid) :
    (g.Start).2 = none
    ∧ ((g.Start).1.Start).2 = none
    ∧ (g.Start).1 = { g with
        registry := some ((g.registry).getD "metrics.DefaultRegistry")
        log := { g.log with
          reads := g.log.reads ++ [(g.cmdtopic, [0]), (g.cmdtopic, [0])]
          writes := g.log.writes ++ [g.cmdtopic, g.cmdtopic] } } := by
  obtain ⟨lg, gn, ct, np, q, pr, op, wg, ec, reg, mlt⟩ := g
  obtain ⟨dt, et, pa, rd, wr⟩ := lg
  cases reg <;> simp [Grid.Start]

/-- C9: on a freshly constructed grid, `Stop()` closes the exit channel
and brings the WaitGroup counter from 1 to 0 so that `Wait()` returns;
a second `Stop()` on the result panics — `close` of an already-closed
channel — instead of being an idempotent no-op. -/
theorem stop_twice_panics (gridname : String) (npeers : Int) (rwlog : ReadWriteLog) :
    ∃ g1, (NewWithKafkaConfig gridname npeers rwlog).Stop = .ok g1
      ∧ g1.exitClosed = true
      ∧ g1.wgCount = 0
      ∧ g1.waitReturns = true
      ∧ g1.Stop = .panicked "close of closed channel" :=
  ⟨_, rfl, rfl, rfl, rfl, rfl⟩

/-- Step equation for `addTopics`: a topic without a registered decoder
fails immediately. -/
theorem addTopics_cons_nodec (n : Int) (g : Grid) (o : Op) (t : String) (rest : List String)
    (hd : g.log.decodedTopics.contains t = false) :
    addTopics n g o (t :: rest)
      = (g, o, some ("grid: topic: " ++ t ++ ": no decoder found for topic")) := by
  have hd2 : t ∉ g.log.decodedTopics := by simpa using hd
  simp [addTopics, hd2]

/-- Step equation for `addTopics`: failed partition discovery fails the
call after the topic was marked as an input. -/
theorem addTopics_cons_parterr (n : Int) (g : Grid) (o : Op) (t : String) (rest : List String)
    (e : String) (hd : g.log.decodedTopics.contains t = true)
    (hp : g.log.partitions t = .error e) :
    addTopics n g o (t :: rest)
      = (g, { o with inputs := o.inputs ++ [t] },
          some ("grid: topic: " ++ t ++ ": failed getting partition data: " ++ e)) := by
  have hd2 : t ∈ g.log.decodedTopics := by simpa using hd
  simp [addTopics, hd2, hp]

/-- Step equation for `addTopics`: a discovered partition count above the
parallelism fails the call, after the partitions were already stored in
the partition table. -/
theorem addTopics_cons_toomany (n : Int) (g : Grid) (o : Op) (t : String) (rest : List String)
    (ps : List Int) (hd : g.log.decodedTopics.contains t = true)
    (hp : g.log.partitions t = .ok ps) (hl : (ps.length : Int) > n) :
    addTopics n g o (t :: rest)
      = ({ g with parts := (t, ps) :: g.parts }, { o with inputs := o.inputs ++ [t] },
          some ("grid: topic: " ++ t ++ ": parallelism of function is greater than number of partitions")) := by
  have hd2 : t ∈ g.log.decodedTopics := by simpa using hd
  simp [addTopics, hd2, hp, hl]

/-- Step equation for `addTopics`: a topic passing all three checks stores
its partitions and continues with the remaining topics. -/
theorem addTopics_cons_ok (n : Int) (g : Grid) (o : Op) (t : String) (rest : List String)
    (ps : List Int) (hd : g.log.decodedTopics.contains t = true)
    (hp : g.log.partitions t = .ok ps) (hl : ¬(ps.length : Int) > n) :
    addTopics n g o (t :: rest)
      = addTopics n { g with parts := (t, ps) :: g.parts }
          { o with inputs := o.inputs ++ [t] } rest := by
  have hd2 : t ∈ g.log.decodedTopics := by simpa using hd
  simp [addTopics, hd2, hp, hl]

/-- The topic loop of `Add` never changes the log handle. -/
theorem addTopics_log (n : Int) (l : List String) :
    ∀ (g : Grid) (o : Op), (addTopics n g o l).1.log = g.log := by
  induction l with
  | nil => intro g o; rfl
  | cons t rest ih =>
    intro g o
    cases hd : g.log.decodedTopics.contains t with
    | false => rw [addTopics_cons_nodec n g o t rest hd]
    | true =>
      cases hp : g.log.partitions t with
      | error e => rw [addTopics_cons_parterr n g o t rest e hd hp]
      | ok ps =>
        by_cases hl : (ps.length : Int) > n
        · rw [addTopics_cons_toomany n g o t rest ps hd hp hl]
        · rw [addTopics_cons_ok n g o t rest ps hd hp hl, ih]

/-- The topic loop of `Add` never touches the operator registry. -/
theorem addTopics_ops (n : Int) (l : List String) :
    ∀ (g : Grid) (o : Op), (addTopics n g o l).1.ops = g.ops := by
  induction l with
  | nil => intro g o; rfl
  | cons t rest ih =>
    intro g o
    cases hd : g.log.decodedTopics.contains t with
    | false => rw [addTopics_cons_nodec n g o t rest hd]
    | true =>
      cases hp : g.log.partitions t with
      | error e => rw [addTopics_cons_parterr n g o t rest e hd hp]
      | ok ps =>
        by_cases hl : (ps.length : Int) > n
        · rw [addTopics_cons_toomany n g o t rest ps hd hp hl]
        · rw [addTopics_cons_ok n g o t rest ps hd hp hl, ih]

/-- The topic loop of `Add` fails exactly when some listed topic has no
decoder, fails partition discovery, or has more discovered partitions
than the parallelism `n`. -/
theorem addTopics_err_iff (n : Int) (l : List String) :
    ∀ (g : Grid) (o : Op),
    (addTopics n g o l).2.2.isSome = true ↔
      ∃ t ∈ l, g.log.decodedTopics.contains t = false
        ∨ (∃ e, g.log.partitions t = .error e)
        ∨ ∃ ps, g.log.partitions t = .ok ps ∧ (ps.length : Int) > n := by
  induction l with
  | nil => intro g o; simp [addTopics]
  | cons t rest ih =>
    intro g o
    cases hd : g.log.decodedTopics.contains t with
    | false =>
      rw [addTopics_cons_nodec n g o t rest hd]
      simp only [Option.isSome_some, true_iff]
      exact ⟨t, List.mem_cons_self t rest, Or.inl hd⟩
    | true =>
      cases hp : g.log.partitions t with
      | error e =>
        rw [addTopics_cons_parterr n g o t rest e hd hp]
        simp only [Option.isSome_some, true_iff]
        exact ⟨t, List.mem_cons_self t rest, Or.inr (Or.inl ⟨e, hp⟩)⟩
      | ok ps =>
        by_cases hl : (ps.length : Int) > n
        · rw [addTopics_cons_toomany n g o t rest ps hd hp hl]
          simp only [Option.isSome_some, true_iff]
          exact ⟨t, List.mem_cons_self t rest, Or.inr (Or.inr ⟨ps, hp, hl⟩)⟩
        · rw [addTopics_cons_ok n g o t rest ps hd hp hl]
          rw [ih]
          constructor
          · rintro ⟨t2, ht2, hb⟩
            exact ⟨t2, List.mem_cons_of_mem t ht2, hb⟩
          · rintro ⟨t2, ht2, hb⟩
            rcases List.mem_cons.mp ht2 with h1 | h1
            · subst h1
              exfalso
              rcases hb with h2 | ⟨e, h2⟩ | ⟨ps2, h2, h3⟩
              · rw [hd] at h2; cases h2
              · rw [hp] at h2; cases h2
              · rw [hp] at h2
                injection h2 with h4
                subst h4
                exact hl h3
            · exact ⟨t2, h1, hb⟩

/-- A partition-table entry backed by the discovery function survives the
topic loop: any re-insertion of the same topic stores the same value. -/
theorem addTopics_parts_stable (n : Int) (l : List String) :
    ∀ (g : Grid) (o : Op) (t : String) (ps : List Int),
    g.parts.lookup t = some ps → g.log.partitions t = .ok ps →
    (addTopics n g o l).1.parts.lookup t = some ps := by
  induction l with
  | nil => intro g o t ps hl hp; exact hl
  | cons t2 rest ih =>
    intro g o t ps hl hp
    cases hd : g.log.decodedTopics.contains t2 with
    | false => rw [addTopics_cons_nodec n g o t2 rest hd]; exact hl
    | true =>
      cases hpp : g.log.partitions t2 with
      | error e => rw [addTopics_cons_parterr n g o t2 rest e hd hpp]; exact hl
      | ok ps2 =>
        have hcons : ((t2, ps2) :: g.parts).lookup t = some ps := by
          by_cases he : t = t2
          · subst he
            rw [hp] at hpp
            injection hpp with h4
            subst h4
            simp [List.lookup]
          · simp only [List.lookup, beq_eq_false_iff_ne.mpr he]
            exact hl
        by_cases hln : (ps2.length : Int) > n
        · rw [addTopics_cons_toomany n g o t2 rest ps2 hd hpp hln]
          exact hcons
        · rw [addTopics_cons_ok n g o t2 rest ps2 hd hpp hln]
          exact ih _ _ t ps hcons hp

/-- When the topic loop succeeds, every listed topic has its discovered
partitions stored in the partition table of the resulting grid. -/
theorem addTopics_ok_parts (n : Int) (l : List String) :
    ∀ (g : Grid) (o : Op), (addTopics n g o l).2.2 = none →
    ∀ t ∈ l, ∃ ps, g.log.partitions t = .ok ps
      ∧ (addTopics n g o l).1.parts.lookup t = some ps := by
  induction l with
  | nil => intro g o _ t ht; cases ht
  | cons t2 rest ih =>
    intro g o hnone t ht
    cases hd : g.log.decodedTopics.contains t2 with
    | false =>
      rw [addTopics_cons_nodec n g o t2 rest hd] at hnone
      cases hnone
    | true =>
      cases hpp : g.log.partitions t2 with
      | error e =>
        rw [addTopics_cons_parterr n g o t2 rest e hd hpp] at hnone
        cases hnone
      | ok ps2 =>
        by_cases hln : (ps2.length : Int) > n
        · rw [addTopics_cons_toomany n g o t2 rest ps2 hd hpp hln] at hnone
          cases hnone
        · rw [addTopics_cons_ok n g o t2 rest ps2 hd hpp hln] at hnone ⊢
          rcases List.mem_cons.mp ht with he | hmem
          · subst he
            refine ⟨ps2, hpp, ?_⟩
            apply addTopics_parts_stable
            · simp [List.lookup]
            · exact hpp
          · exact ih _ _ hnone t hmem

/-- Step equation for `Grid.Add`: a duplicate operator name fails
immediately. -/
theorem add_dup (g : Grid) (fname : String) (n : Int) (f : List Event → List Event)
    (topics : List String) (hdup : (g.ops.lookup fname).isSome = true) :
    Grid.Add g fname n f topics = (g, some ("gird: already added: " ++ fname)) := by
  simp [Grid.Add, hdup]

/-- Step equation for `Grid.Add`: when the topic loop succeeds the
operator is recorded in the registry of the mutated grid. -/
theorem add_run_ok (g : Grid) (fname : String) (n : Int) (f : List Event → List Event)
    (topics : List String) (g2 : Grid) (o2 : Op)
    (hdup : (g.ops.lookup fname).isSome = false)
    (hr : addTopics n g { n := n, f := f, inputs := [] } topics = (g2, o2, none)) :
    Grid.Add g fname n f topics = ({ g2 with ops := (fname, o2) :: g2.ops }, none) := by
  simp [Grid.Add, hdup, hr]

/-- Step equation for `Grid.Add`: when the topic loop fails the error is
returned over the partially mutated grid, with no registry insertion. -/
theorem add_run_err (g : Grid) (fname : String) (n : Int) (f : List Event → List Event)
    (topics : List String) (g2 : Grid) (o2 : Op) (e : String)
    (hdup : (g.ops.lookup fname).isSome = false)
    (hr : addTopics n g { n := n, f := f, inputs := [] } topics = (g2, o2, some e)) :
    Grid.Add g fname n f topics = (g2, some e) := by
  simp [Grid.Add, hdup, hr]

/-- C1: `Add(name, n, f, topics...)` errors exactly when the name is
already registered, some listed topic lacks a decoder, partition
discovery fails for some topic, or the discovered partition count of
some topic exceeds `n`; on success the operator is recorded in the
registry and the discovered partitions of every listed topic are stored
in the partition table. -/
theorem add_spec (g : Grid) (fname : String) (n : Int) (f : List Event → List Event)
    (topics : List String) :
    ((Grid.Add g fname n f topics).2.isSome = true ↔
      (g.ops.lookup fname).isSome = true
      ∨ ∃ t ∈ topics, g.log.decodedTopics.contains t = false
          ∨ (∃ e, g.log.partitions t = .error e)
          ∨ ∃ ps, g.log.partitions t = .ok ps ∧ (ps.length : Int) > n)
    ∧ ((Grid.Add g fname n f topics).2 = none →
        ((Grid.Add g fname n f topics).1.ops.lookup fname).isSome = true
        ∧ ∀ t ∈ topics, ∃ ps, g.log.partitions t = .ok ps
            ∧ (Grid.Add g fname n f topics).1.parts.lookup t = some ps) := by
  cases hdup : (g.ops.lookup fname).isSome with
  | true =>
    rw [add_dup g fname n f topics hdup]
    exact ⟨⟨fun _ => Or.inl rfl, fun _ => rfl⟩, fun hc => Option.noConfusion hc⟩
  | false =>
    have herr := addTopics_err_iff n topics g { n := n, f := f, inputs := [] }
    have hparts := addTopics_ok_parts n topics g { n := n, f := f, inputs := [] }
    rcases hr : addTopics n g { n := n, f := f, inputs := [] } topics with ⟨g2, o2, err⟩
    rw [hr] at herr hparts
    cases err with
    | none =>
      rw [add_run_ok g fname n f topics g2 o2 hdup hr]
      constructor
      · constructor
        · intro h
          exact Bool.noConfusion h
        · intro hor
          rcases hor with h | hex
          · exact Bool.noConfusion h
          · exact Bool.noConfusion (herr.mpr hex)
      · intro _
        refine ⟨by simp [List.lookup], ?_⟩
        intro t ht
        exact hparts rfl t ht
    | some e =>
      rw [add_run_err g fname n f topics g2 o2 e hdup hr]
      constructor
      · exact ⟨fun _ => Or.inr (herr.mp rfl), fun _ => rfl⟩
      · intro hc
        exact Option.noConfusion hc

/-- C1 witness: `Add("x", 2, f, "topicA")` fails when `topicA` has three
discovered partitions and succeeds — recording the operator and the
partition table entry — when it has two. -/
theorem add_spec_witness :
    (Grid.Add (topicAGrid [0, 1, 2]) "x" 2 idF ["topicA"]).2.isSome = true
    ∧ (Grid.Add (topicAGrid [0, 1]) "x" 2 idF ["topicA"]).2 = none
    ∧ ((Grid.Add (topicAGrid [0, 1]) "x" 2 idF ["topicA"]).1.ops.lookup "x").isSome = true
    ∧ (Grid.Add (topicAGrid [0, 1]) "x" 2 idF ["topicA"]).1.parts.lookup "topicA"
        = some [0, 1] := by
  refine ⟨?_, by decide, ?_, by decide⟩
  · exact (add_spec (topicAGrid [0, 1, 2]) "x" 2 idF ["topicA"]).1.mpr
      (Or.inr ⟨"topicA", by decide, Or.inr (Or.inr ⟨[0, 1, 2], rfl, by decide⟩)⟩)
  · exact ((add_spec (topicAGrid [0, 1]) "x" 2 idF ["topicA"]).2 (by decide)).1

/-- C10: whenever `Add` returns an error the operator registry is
untouched, so a later `Add` under the same name can still succeed; but
the partition table keeps the entries stored before the failing check, as
the concrete grid shows: `Add("x", 2, f, "tA", "tB")` fails on the three
partitions of `tB` yet leaves both discovered entries in the table, and a
retry with parallelism 3 succeeds. -/
theorem add_error_frame :
    (∀ (g : Grid) (fname : String) (n : Int) (f : List Event → List Event)
        (topics : List String),
      (Grid.Add g fname n f topics).2.isSome = true →
        (Grid.Add g fname n f topics).1.ops = g.ops)
    ∧ (Grid.Add exGrid "x" 2 idF ["tA", "tB"]).2.isSome = true
    ∧ (Grid.Add exGrid "x" 2 idF ["tA", "tB"]).1.parts
        = [("tB", [0, 1, 2]), ("tA", [0])]
    ∧ (Grid.Add exGrid "x" 2 idF ["tA", "tB"]).1.parts ≠ exGrid.parts
    ∧ (Grid.Add (Grid.Add exGrid "x" 2 idF ["tA", "tB"]).1 "x" 3 idF ["tA", "tB"]).2
        = none := by
  refine ⟨?_, by decide, by decide, by decide, by decide⟩
  intro g fname n f topics hfail
  cases hdup : (g.ops.lookup fname).isSome with
  | true => rw [add_dup g fname n f topics hdup]
  | false =>
    rcases hr : addTopics n g { n := n, f := f, inputs := [] } topics with ⟨g2, o2, err⟩
    cases err with
    | none =>
      rw [add_run_ok g fname n f topics g2 o2 hdup hr] at hfail
      exact Bool.noConfusion hfail
    | some e =>
      rw [add_run_err g fname n f topics g2 o2 e hdup hr]
      have := addTopics_ops n topics g { n := n, f := f, inputs := [] }
      rw [hr] at this
      exact this

/-- C10 witness: the frame part of `add_error_frame` applied to the
failing concrete registration, showing the registry stayed empty. -/
theorem add_error_frame_witness :
    (Grid.Add exGrid "x" 2 idF ["tA", "tB"]).2.isSome = true
    ∧ (Grid.Add exGrid "x" 2 idF ["tA", "tB"]).1.ops = exGrid.ops := by
  have h := add_error_frame
  exact ⟨h.2.1, h.1 exGrid "x" 2 idF ["tA", "tB"] h.2.1⟩

/-- Replacing the entry at index `i` changes a mapped sum by the
difference between old and new entry. -/
theorem map_sum_set {α : Type} {M : Type} [AddCommMonoid M] (f : α → M)
    (l : List α) (i : Nat) (x y : α) (h : l.get? i = some x) :
    ((l.set i y).map f).sum + f x = (l.map f).sum + f y := by
  induction l generalizing i with
  | nil => cases h
  | cons hd tl ih =>
    cases i with
    | zero =>
      have h2 : hd = x := by simpa using h
      subst h2
      simp only [List.set, List.map, List.sum_cons]
      abel
    | succ j =>
      have h2 : tl.get? j = some x := by simpa using h
      simp only [List.set, List.map, List.sum_cons]
      rw [add_assoc, add_assoc, ih j h2]

/-- Invariant of any interleaving of the merge goroutines: consumed plus
pending events always account for all input events, the meter equals the
number of merged events, and the meter name never changes. -/
theorem mergeRun_inv (fname : String) (ins : List (List Event)) (sched : List Nat) :
    (((mergeRun fname ins sched).pending.map mset).sum
        + mset (mergeRun fname ins sched).merged
      = (ins.map mset).sum)
    ∧ ((mergeRun fname ins sched).merged.length
        + ((mergeRun fname ins sched).pending.map List.length).sum
      = (ins.map List.length).sum)
    ∧ (mergeRun fname ins sched).meterCount = (mergeRun fname ins sched).merged.length
    ∧ (mergeRun fname ins sched).meterName = fname ++ "-msg-rate" := by
  induction sched using List.reverseRecOn with
  | nil => simp [mergeRun, Grid.mergeInit, mset]
  | append_singleton sched i ih =>
    have hrun : mergeRun fname ins (sched ++ [i])
        = mergeStep (mergeRun fname ins sched) i := by
      simp [mergeRun, List.foldl_append]
    obtain ⟨ih1, ih2, ih3, ih4⟩ := ih
    rw [hrun]
    rcases hget : (mergeRun fname ins sched).pending.get? i with _ | ⟨_ | ⟨e, rest⟩⟩
    · simp only [mergeStep, hget]
      exact ⟨ih1, ih2, ih3, ih4⟩
    · simp only [mergeStep, hget]
      exact ⟨ih1, ih2, ih3, ih4⟩
    · simp only [mergeStep, hget]
      have hms := map_sum_set mset (mergeRun fname ins sched).pending i (e :: rest) rest hget
      have hln := map_sum_set List.length
        (mergeRun fname ins sched).pending i (e :: rest) rest hget
      have hconsm : mset (e :: rest) = {e} + mset rest := by
        simp [mset, Multiset.singleton_add]
      refine ⟨?_, ?_, ?_, ih4⟩
      · have hcan : (((mergeRun fname ins sched).pending.set i rest).map mset).sum + {e}
            = ((mergeRun fname ins sched).pending.map mset).sum := by
          rw [hconsm, ← add_assoc] at hms
          exact add_right_cancel hms
        have happ : mset ((mergeRun fname ins sched).merged ++ [e])
            = mset (mergeRun fname ins sched).merged + {e} := rfl
        rw [happ, ← ih1, ← hcan]
        abel
      · have : (e :: rest).length = rest.length + 1 := by simp
        rw [this] at hln
        simp only [List.length_append, List.length_cons, List.length_nil]
        omega
      · simp [ih3]

/-- A list of all-empty channels contributes nothing to either sum. -/
theorem all_isEmpty_sums (p : List (List Event)) (h : p.all List.isEmpty = true) :
    (p.map mset).sum = 0 ∧ (p.map List.length).sum = 0 := by
  induction p with
  | nil => simp [mset]
  | cons hd tl ih =>
    simp only [List.all_cons, Bool.and_eq_true] at h
    have hhd : hd = [] := by
      cases hd with
      | nil => rfl
      | cons a l => simp [List.isEmpty] at h
    subst hhd
    obtain ⟨ih1, ih2⟩ := ih h.2
    simp [mset, ih1, ih2]

/-- C2: under every complete interleaving of the merge goroutines (all
input channels drained), the merged channel carries exactly the events of
all inputs — as a multiset, so with the exact total count — and the
meter registered under `fname ++ "-msg-rate"` was marked exactly once per
consumed event. -/
theorem merge_spec (fname : String) (ins : List (List Event)) (sched : List Nat)
    (h : (mergeRun fname ins sched).pending.all List.isEmpty = true) :
    mset (mergeRun fname ins sched).merged = (ins.map mset).sum
    ∧ (mergeRun fname ins sched).merged.length = (ins.map List.length).sum
    ∧ (mergeRun fname ins sched).meterName = fname ++ "-msg-rate"
    ∧ (mergeRun fname ins sched).meterCount = (ins.map List.length).sum := by
  obtain ⟨h1, h2, h3, h4⟩ := mergeRun_inv fname ins sched
  obtain ⟨hz1, hz2⟩ := all_isEmpty_sums _ h
  rw [hz1, zero_add] at h1
  rw [hz2] at h2
  refine ⟨h1, by omega, h4, by omega⟩

set_option maxRecDepth 40000 in
/-- C2 witness: merging three streams of one hundred events under the
round-robin schedule drains all inputs, yields exactly three hundred
merged events and a meter count of three hundred on the meter named
`op-msg-rate`. -/
theorem merge_spec_witness :
    (mergeRun "op" mergeDemoIns mergeDemoSched).pending.all List.isEmpty = true
    ∧ (mergeRun "op" mergeDemoIns mergeDemoSched).merged.length = 300
    ∧ (mergeRun "op" mergeDemoIns mergeDemoSched).meterCount = 300
    ∧ (mergeRun "op" mergeDemoIns mergeDemoSched).meterName = "op-msg-rate" := by
  have hall : (mergeRun "op" mergeDemoIns mergeDemoSched).pending.all List.isEmpty = true := by
    decide
  have hs := merge_spec "op" mergeDemoIns mergeDemoSched hall
  have hlen : (mergeDemoIns.map List.length).sum = 300 := by decide
  exact ⟨hall, by rw [hs.2.1, hlen], by rw [hs.2.2.2, hlen], hs.2.2.1⟩

/-- Lookup in the freshly opened per-topic channels gives empty lists. -/
theorem lookup_init_nil (encoded : List String) (t : String) (l : List Event)
    (h : (encoded.map (fun s => (s, ([] : List Event)))).lookup t = some l) :
    l = [] := by
  induction encoded with
  | nil => cases h
  | cons s rest ih =>
    simp only [List.map_cons, List.lookup] at h
    cases hbe : (t == s) with
    | true =>
      rw [hbe] at h
      injection h with h
      exact h.symm
    | false =>
      rw [hbe] at h
      exact ih h

/-- Association lookup at the head key. -/
theorem lookup_cons_eq {β : Type} (k : String) (v : β) (l : List (String × β)) :
    ((k, v) :: l).lookup k = some v := by
  simp [List.lookup]

/-- Association lookup skips a head with a different key. -/
theorem lookup_cons_ne {β : Type} (a k : String) (v : β) (l : List (String × β))
    (h : ¬a = k) : ((k, v) :: l).lookup a = l.lookup a := by
  simp [List.lookup, beq_eq_false_iff_ne.mpr h]

/-- Sending on a per-topic channel does not change the set of channels. -/
theorem demuxSend_keys (d : List (String × List Event)) (t : String) (e : Event) :
    (demuxSend d t e).map Prod.fst = d.map Prod.fst := by
  induction d with
  | nil => rfl
  | cons p rest ih =>
    simp only [demuxSend, List.map_cons] at ih ⊢
    have hhead : (if p.1 = t then (p.1, p.2 ++ [e]) else p).1 = p.1 := by
      by_cases hp : p.1 = t
      · rw [if_pos hp]
      · rw [if_neg hp]
    rw [hhead, ih]

/-- Lookup after sending event `e` to channel `t`: channel `t` gained `e`
at the end, every other channel is unchanged. -/
theorem lookup_demuxSend (d : List (String × List Event)) (t t2 : String) (e : Event) :
    (demuxSend d t e).lookup t2
      = if t2 = t then (d.lookup t2).map (fun l => l ++ [e]) else d.lookup t2 := by
  induction d with
  | nil =>
    by_cases h : t2 = t <;> simp [demuxSend, List.lookup, h]
  | cons p rest ih =>
    obtain ⟨k, v⟩ := p
    have hsend : demuxSend ((k, v) :: rest) t e
        = (if k = t then (k, v ++ [e]) else (k, v)) :: demuxSend rest t e := rfl
    rw [hsend]
    by_cases hk : k = t
    · subst hk
      rw [if_pos rfl]
      by_cases ht2 : t2 = k
      · subst ht2
        rw [lookup_cons_eq, if_pos rfl, lookup_cons_eq]
        rfl
      · rw [lookup_cons_ne t2 k (v ++ [e]) (demuxSend rest k e) ht2, ih,
          if_neg ht2, if_neg ht2, lookup_cons_ne t2 k v rest ht2]
    · rw [if_neg hk]
      by_cases ht2 : t2 = k
      · subst ht2
        rw [lookup_cons_eq, if_neg hk, lookup_cons_eq]
      · rw [lookup_cons_ne t2 k v (demuxSend rest t e) ht2, ih]
        by_cases htt : t2 = t
        · rw [if_pos htt, if_pos htt, lookup_cons_ne t2 k v rest ht2]
        · rw [if_neg htt, if_neg htt, lookup_cons_ne t2 k v rest ht2]

/-- A key that lookup cannot find is not among the mapped keys. -/
theorem lookup_none_contains (d : List (String × List Event)) (a : String)
    (h : d.lookup a = none) : (d.map Prod.fst).contains a = false := by
  induction d with
  | nil => rfl
  | cons p rest ih =>
    simp only [List.lookup] at h
    cases hbe : (a == p.1) with
    | true =>
      rw [hbe] at h
      cases h
    | false =>
      rw [hbe] at h
      simp only [List.map_cons, List.contains_cons, hbe, Bool.false_or]
      exact ih h

/-- After a `log.Fatalf` the demux process is dead: every further step is
a no-op. -/
theorem demuxStep_fatal_some (s : DemuxState) (st : DemuxStep)
    (h : s.fatal.isSome = true) : demuxStepFn s st = s := by
  cases st <;> simp [demuxStepFn, h]

/-- One demux step preserves the three routing invariants: the channel
set stays the set of encoded topics, every event sitting on a channel is
addressed to that channel, and a fatal event has no channel. -/
theorem demuxStep_inv (encoded : List String) (s : DemuxState) (st : DemuxStep)
    (hk : s.delivered.map Prod.fst = encoded)
    (hr : ∀ t l, s.delivered.lookup t = some l → ∀ ev ∈ l, ev.topic = t)
    (hf : ∀ ev, s.fatal = some ev → s.delivered.lookup ev.topic = none) :
    ((demuxStepFn s st).delivered.map Prod.fst = encoded)
    ∧ (∀ t l, (demuxStepFn s st).delivered.lookup t = some l → ∀ ev ∈ l, ev.topic = t)
    ∧ (∀ ev, (demuxStepFn s st).fatal = some ev →
        (demuxStepFn s st).delivered.lookup ev.topic = none) := by
  cases hfat : s.fatal with
  | some ev0 =>
    rw [demuxStep_fatal_some s st (by rw [hfat]; rfl)]
    exact ⟨hk, hr, hf⟩
  | none =>
    cases st with
    | recv i =>
      rcases hh : s.holding.get? i with _ | ⟨_ | e0⟩ <;>
        rcases hp : s.produced with _ | ⟨e, rest⟩ <;>
          simp only [demuxStepFn, hfat, Option.isSome_none, Bool.false_eq_true,
            if_false, hh, hp] <;>
        exact ⟨hk, hr, fun ev hev => by cases hev⟩
    | deliver i =>
      rcases hh : s.holding.get? i with _ | ⟨_ | e⟩
      · simp only [demuxStepFn, hfat, Option.isSome_none, Bool.false_eq_true,
          if_false, hh]
        exact ⟨hk, hr, fun ev hev => by cases hev⟩
      · simp only [demuxStepFn, hfat, Option.isSome_none, Bool.false_eq_true,
          if_false, hh]
        exact ⟨hk, hr, fun ev hev => by cases hev⟩
      · cases hl : (s.delivered.lookup e.topic).isSome with
        | true =>
          simp only [demuxStepFn, hfat, Option.isSome_none, Bool.false_eq_true,
            if_false, hh, hl, if_true]
          refine ⟨by rw [demuxSend_keys]; exact hk, ?_, ?_⟩
          · intro t l hlook ev hev
            rw [lookup_demuxSend] at hlook
            by_cases ht : t = e.topic
            · rw [if_pos ht] at hlook
              rcases hold : s.delivered.lookup t with _ | l0
              · rw [hold] at hlook; cases hlook
              · rw [hold] at hlook
                injection hlook with hlook
                subst hlook
                rcases List.mem_append.mp hev with h1 | h1
                · exact hr t l0 hold ev h1
                · rw [List.mem_singleton.mp h1, ht]
            · rw [if_neg ht] at hlook
              exact hr t l hlook ev hev
          · intro ev hev
            cases hev
        | false =>
          simp only [demuxStepFn, hfat, Option.isSome_none, Bool.false_eq_true,
            if_false, hh, hl, if_false]
          refine ⟨hk, hr, ?_⟩
          intro ev hev
          injection hev with hev
          subst hev
          exact Option.not_isSome_iff_eq_none.mp (by rw [hl]; simp)

/-- The freshly opened per-topic channels are keyed by exactly the
encoded topics. -/
theorem map_fst_init (encoded : List String) :
    (encoded.map (fun s => (s, ([] : List Event)))).map Prod.fst = encoded := by
  induction encoded with
  | nil => rfl
  | cons s rest ih => simp [ih]

/-- Routing invariants of every demux run: the channels are exactly the
encoded topics, every routed event sits on the channel of its own
destination topic, and a fatal event has no channel. -/
theorem demux_inv (encoded : List String) (out : List Event) (sched : List DemuxStep) :
    ((demuxRun encoded out sched).delivered.map Prod.fst = encoded)
    ∧ (∀ t l, (demuxRun encoded out sched).delivered.lookup t = some l →
        ∀ ev ∈ l, ev.topic = t)
    ∧ (∀ ev, (demuxRun encoded out sched).fatal = some ev →
        (demuxRun encoded out sched).delivered.lookup ev.topic = none) := by
  induction sched using List.reverseRecOn with
  | nil =>
    refine ⟨?_, ?_, ?_⟩
    · exact map_fst_init encoded
    · intro t l h ev hev
      have hinit : (demuxRun encoded out []).delivered
          = encoded.map (fun s => (s, ([] : List Event))) := rfl
      rw [hinit] at h
      have hl := lookup_init_nil encoded t l h
      subst hl
      cases hev
    · intro ev h
      cases h
  | append_singleton sched st ih =>
    have hrun : demuxRun encoded out (sched ++ [st])
        = demuxStepFn (demuxRun encoded out sched) st := by
      simp [demuxRun, List.foldl_append]
    rw [hrun]
    exact demuxStep_inv encoded _ st ih.1 ih.2.1 ih.2.2

/-- With a single encoded topic there is exactly one demux goroutine; as
long as it has not died fatally, the events already routed, the event in
hand and the events still unreceived concatenate to the produced stream
in order. -/
theorem demux_single_inv (t : String) (out : List Event) (sched : List DemuxStep) :
    (demuxRun [t] out sched).fatal = none →
      ∃ done held,
        (demuxRun [t] out sched).delivered = [(t, done)]
        ∧ (demuxRun [t] out sched).holding = [held]
        ∧ done ++ held.toList ++ (demuxRun [t] out sched).produced = out := by
  induction sched using List.reverseRecOn with
  | nil =>
    intro _
    exact ⟨[], none, rfl, rfl, rfl⟩
  | append_singleton sched st ih =>
    have hrun : demuxRun [t] out (sched ++ [st])
        = demuxStepFn (demuxRun [t] out sched) st := by
      simp [demuxRun, List.foldl_append]
    rw [hrun]
    intro hfat2
    cases hfat : (demuxRun [t] out sched).fatal with
    | some ev0 =>
      rw [demuxStep_fatal_some _ st (by rw [hfat]; rfl)] at hfat2
      rw [hfat] at hfat2
      cases hfat2
    | none =>
      obtain ⟨done, held, hdel, hhold, hacc⟩ := ih hfat
      cases st with
      | recv i =>
        cases i with
        | zero =>
          have hg : (demuxRun [t] out sched).holding.get? 0 = some held := by
            rw [hhold]; rfl
          cases held with
          | none =>
            rcases hp : (demuxRun [t] out sched).produced with _ | ⟨e, rest⟩
            · simp only [demuxStepFn, hfat, Option.isSome_none, Bool.false_eq_true,
                if_false, hg, hp]
              refine ⟨done, none, hdel, hhold, ?_⟩
              rw [hp] at hacc
              exact hacc
            · simp only [demuxStepFn, hfat, Option.isSome_none, Bool.false_eq_true,
                if_false, hg, hp]
              refine ⟨done, some e, hdel, by rw [hhold]; rfl, ?_⟩
              rw [hp] at hacc
              simpa using hacc
          | some e0 =>
            simp only [demuxStepFn, hfat, Option.isSome_none, Bool.false_eq_true,
              if_false, hg]
            rcases hp : (demuxRun [t] out sched).produced with _ | ⟨e, rest⟩ <;>
              rw [hp] at hacc <;>
              exact ⟨done, some e0, hdel, hhold, hacc⟩
        | succ j =>
          have hg : (demuxRun [t] out sched).holding.get? (j + 1) = none := by
            rw [hhold]; rfl
          simp only [demuxStepFn, hfat, Option.isSome_none, Bool.false_eq_true,
            if_false, hg]
          rcases hp : (demuxRun [t] out sched).produced with _ | ⟨e, rest⟩ <;>
            rw [hp] at hacc <;>
            exact ⟨done, held, hdel, hhold, hacc⟩
      | deliver i =>
        cases i with
        | zero =>
          have hg : (demuxRun [t] out sched).holding.get? 0 = some held := by
            rw [hhold]; rfl
          cases held with
          | none =>
            simp only [demuxStepFn, hfat, Option.isSome_none, Bool.false_eq_true,
              if_false, hg]
            exact ⟨done, none, hdel, hhold, hacc⟩
          | some e =>
            by_cases he : e.topic = t
            · have hlook : (demuxRun [t] out sched).delivered.lookup e.topic
                  = some done := by
                rw [hdel, he, lookup_cons_eq]
              simp only [demuxStepFn, hfat, Option.isSome_none, Bool.false_eq_true,
                if_false, hg, hlook, Option.isSome_some, if_true]
              refine ⟨done ++ [e], none, ?_, by rw [hhold]; rfl, ?_⟩
              · rw [hdel]
                simp [demuxSend, he]
              · simpa using hacc
            · have hlook : (demuxRun [t] out sched).delivered.lookup e.topic
                  = none := by
                rw [hdel, lookup_cons_ne e.topic t done [] he]
                rfl
              simp only [demuxStepFn, hfat, Option.isSome_none, Bool.false_eq_true,
                if_false, hg, hlook, if_false] at hfat2
              cases hfat2
        | succ j =>
          have hg : (demuxRun [t] out sched).holding.get? (j + 1) = none := by
            rw [hhold]; rfl
          simp only [demuxStepFn, hfat, Option.isSome_none, Bool.false_eq_true,
            if_false, hg]
          exact ⟨done, held, hdel, hhold, hacc⟩

/-- C3 amended: in every interleaving of the demux goroutines each routed
event appears only on the channel of its declared destination topic, an
event addressed to a topic with no registered encoder makes the worker
holding it die fatally, and the per-destination production order is
preserved when there is a single encoded topic (hence a single demux
goroutine); with several encoded topics the code spawns one goroutine per
topic over the shared output channel, and order is not guaranteed. -/
theorem demux_spec (encoded : List String) (out : List Event) (sched : List DemuxStep) :
    (∀ t l, (demuxRun encoded out sched).delivered.lookup t = some l →
        ∀ ev ∈ l, ev.topic = t)
    ∧ ((demuxRun encoded out sched).delivered.map Prod.fst = encoded)
    ∧ (∀ ev, (demuxRun encoded out sched).fatal = some ev →
        encoded.contains ev.topic = false)
    ∧ (∀ (s : DemuxState) (i : Nat) (ev : Event), s.fatal = none →
        s.holding.get? i = some (some ev) → s.delivered.lookup ev.topic = none →
        (demuxStepFn s (.deliver i)).fatal = some ev)
    ∧ (∀ t0, encoded = [t0] →
        (demuxRun encoded out sched).produced = [] →
        (demuxRun encoded out sched).holding = [none] →
        (demuxRun encoded out sched).fatal = none →
        (demuxRun encoded out sched).delivered = [(t0, out)]) := by
  obtain ⟨hk, hr, hf⟩ := demux_inv encoded out sched
  refine ⟨hr, hk, ?_, ?_, ?_⟩
  · intro ev hev
    rw [← hk]
    exact lookup_none_contains _ _ (hf ev hev)
  · intro s i ev hfat hh hlook
    have hh2 : s.holding[i]? = some (some ev) := by simpa using hh
    simp [demuxStepFn, hfat, hh2, hlook]
  · intro t0 henc hprod hhold hfat
    subst henc
    obtain ⟨done, held, hdel, hhold2, hacc⟩ := demux_single_inv t0 out sched hfat
    rw [hhold2] at hhold
    injection hhold with hhead _
    subst hhead
    rw [hprod] at hacc
    simp only [Option.toList_none, List.append_nil] at hacc
    rw [hdel, hacc]

/-- C3 as stated is false: with the two encoded topics `topicB` and
`topicC` the code spawns two goroutines over the shared operator output
channel; the interleaving in which worker 0 receives the first event,
worker 1 receives the second and delivers it first, routes both events to
`topicB` out of production order: the channel ends as `[cxEv2, cxEv1]`
although the operator produced `cxEv1` before `cxEv2`, with no fatal
error. -/
theorem demux_order_counterexample :
    (demuxRun ["topicB", "topicC"] [cxEv1, cxEv2]
        [.recv 0, .recv 1, .deliver 1, .deliver 0]).delivered.lookup "topicB"
      = some [cxEv2, cxEv1]
    ∧ (demuxRun ["topicB", "topicC"] [cxEv1, cxEv2]
        [.recv 0, .recv 1, .deliver 1, .deliver 0]).fatal = none
    ∧ cxEv1 ≠ cxEv2 := by decide

/-- C3 amended witness: with the single encoded topic `topicB` the lone
demux goroutine delivers both produced events in production order. -/
theorem demux_spec_witness :
    (demuxRun ["topicB"] [cxEv1, cxEv2]
        [.recv 0, .deliver 0, .recv 0, .deliver 0]).delivered
      = [("topicB", [cxEv1, cxEv2])] := by
  have h := (demux_spec ["topicB"] [cxEv1, cxEv2]
      [.recv 0, .deliver 0, .recv 0, .deliver 0]).2.2.2.2 "topicB" rfl
  exact h (by decide) (by decide) (by decide)

/-- C4 witness: an assignment naming the registered operator `w` with its
declared topic passes both fatal branches, while an assignment naming an
unregistered operator and one assigning an undeclared topic both die. -/
theorem startinstCheck_spec_witness :
    gridW.startinstCheck { Fname := "w", Id := 0, TopicSlices := [("t1", [0])] } = none
    ∧ gridW.startinstCheck { Fname := "v", Id := 0, TopicSlices := [("t1", [0])] }
        = some (.doesNotExist "v")
    ∧ gridW.startinstCheck { Fname := "w", Id := 0, TopicSlices := [("t2", [0])] }
        = some (.notSetAsReader "w" "t2") := by
  refine ⟨?_, rfl, rfl⟩
  exact (startinstCheck_spec gridW
    { Fname := "w", Id := 0, TopicSlices := [("t1", [0])] }).mpr
    ⟨opW, rfl, by decide⟩

